import Mathlib

/-!
# Noteworthy — verification of the spec's claims against the source

Shallow embedding of the parts of the Noteworthy note-taking application
(src/src/session/tag_list.rs, src/src/session/note/mod.rs,
src/src/session/note/metadata.rs, src/src/session/note_manager.rs,
src/src/repository/mod.rs) needed to settle the frozen claims.

Conventions of the embedding:
* A `Tag` (src/src/session/tag.rs is not part of the provided sources; the
  GObject is keyed by object identity inside `IndexSet<Tag>`) is represented
  by a natural-number identity; its mutable `name` property lives in an
  explicit heap `Nat → String` threaded through the state.
* `IndexSet` (the `indexmap` crate) is represented by a `List` without
  duplicates; `insert` appends at the end, `shift_remove` removes the first
  occurrence shifting later elements down, `swap_remove` moves the last
  element into the vacated slot.
* GListModel `items_changed(position, removed, inserted)` notifications are
  returned as an explicit list of `ItemsChanged` events.
* Rust `panic` (an `unwrap` on `None`/`Err`) and `anyhow::bail!` are both
  represented as an `Option String` error component carrying the message;
  the state component of the result is the state at the moment of the
  failure (mutations made before the failure are kept, as in the source,
  where `bail!` returns early without rolling anything back).
-/

namespace Noteworthy

/-- `items_changed(position, removed, inserted)` notification of GListModel. -/
structure ItemsChanged where
  position : Nat
  removed : Nat
  inserted : Nat
deriving DecidableEq, Repr

/-! ## List helpers mirroring `indexmap::IndexSet` operations -/

/-- Position of the first occurrence of `x`, mirroring `IndexSet::get_index_of`. -/
def posOf {α : Type} [DecidableEq α] (x : α) : List α → Option Nat
  | [] => none
  | y :: ys => if y = x then some 0 else (posOf x ys).map (· + 1)

/-- Remove the first occurrence of `x`, shifting the rest down,
mirroring `IndexSet::shift_remove` on a duplicate-free list. -/
def removeFirst {α : Type} [DecidableEq α] (x : α) : List α → List α
  | [] => []
  | y :: ys => if y = x then ys else y :: removeFirst x ys

/-- Remove the first occurrence of `x` by moving the last element into its
slot, mirroring `IndexSet::swap_remove`. Absence leaves the list unchanged
(the source only `debug_assert!`s the returned flag). -/
def swapRemove {α : Type} [DecidableEq α] (x : α) (l : List α) : List α :=
  match posOf x l with
  | none => l
  | some i =>
    match l.getLast? with
    | none => l
    | some last => (l.set i last).dropLast

/-! ## TagList (src/src/session/tag_list.rs)

State of `NwtyTagList`: `list: RefCell<IndexSet<Tag>>` (tags by object
identity) and `name_list: RefCell<IndexSet<String>>`, plus the heap of tag
names (each `Tag` object's current `name` property). -/

structure TagList where
  /-- Current `name` property of every tag object (the heap). -/
  heap : Nat → String
  /-- `list: IndexSet<Tag>` — tag identities in insertion order. -/
  list : List Nat
  /-- `name_list: IndexSet<String>` — tag names in insertion order. -/
  nameList : List String

/-- Result of a fallible `TagList` operation: the state after the call, the
`items_changed` notifications it emitted, and the error, if any. -/
structure TagListResult where
  state : TagList
  events : List ItemsChanged
  error : Option String

/-- A fresh `TagList::new()` under a given heap of tag names. -/
def TagList.init (heap : Nat → String) : TagList :=
  { heap := heap, list := [], nameList := [] }

/-- `TagList::n_items` — length of the ordered tag sequence. -/
def TagList.n_items (s : TagList) : Nat :=
  s.list.length

/-- `TagList::append(tag)` (src/src/session/tag_list.rs lines 66-98):
rejects an empty name, then `name_list.insert(tag_name)` (bails if the name
already exists), connects the name-notify handler, inserts the tag into
`list`, and emits `items_changed(n_items() - 1, 0, 1)`. -/
def TagList.append (s : TagList) (tag : Nat) : TagListResult :=
  let tagName := s.heap tag
  if tagName = "" then
    { state := s, events := [], error := some "Tag name cannot be empty" }
  else if tagName ∈ s.nameList then
    { state := s, events := [], error := some "Cannot append exisiting tag name" }
  else
    let s1 : TagList := { s with nameList := s.nameList ++ [tagName] }
    let s2 : TagList := if tag ∈ s1.list then s1 else { s1 with list := s1.list ++ [tag] }
    { state := s2
      events := [⟨s2.n_items - 1, 0, 1⟩]
      error := none }

/-- `TagList::remove(tag)` (src/src/session/tag_list.rs lines 100-124):
`name_list.shift_remove(&tag.name())` first (bailing if the name is absent),
then `list.shift_remove_full(tag)`; on success emits
`items_changed(position, 1, 0)`. Note that when the name is present but the
tag object is not, the source bails only after `name_list` was already
mutated. -/
def TagList.remove (s : TagList) (tag : Nat) : TagListResult :=
  let tagName := s.heap tag
  if tagName ∈ s.nameList then
    let s1 : TagList := { s with nameList := removeFirst tagName s.nameList }
    match posOf tag s1.list with
    | some position =>
      { state := { s1 with list := removeFirst tag s1.list }
        events := [⟨position, 1, 0⟩]
        error := none }
    | none =>
      { state := s1, events := [], error := some "Cannot remove tag that doesnt exist" }
  else
    { state := s, events := [], error := some "Cannot remove tag name that doesnt exist" }

/-- `TagList::rename_tag(tag, name)` (src/src/session/tag_list.rs lines
126-157): bails if `name` is already in the registry (note: including when
it is `tag`'s own current name) or empty; `get_index_of(tag).unwrap()`
(panic when absent); in `name_list` inserts `name` at the end and
`swap_remove`s the previous name (which lands `name` exactly at the previous
name's index); finally `tag.set_name(name)`, whose notify handler
(connected in `append`) emits `items_changed(get_index_of(tag), 1, 1)`. -/
def TagList.rename_tag (s : TagList) (tag : Nat) (name : String) : TagListResult :=
  if name ∈ s.nameList then
    { state := s, events := [], error := some "Cannot rename a tag that already exist" }
  else if name = "" then
    { state := s, events := [], error := some "Tag name cannot be empty" }
  else
    match posOf tag s.list with
    | none =>
      { state := s, events := []
        error := some "panicked: called Option::unwrap on a None value" }
    | some index =>
      let previousName := s.heap tag
      let nameList2 := swapRemove previousName (s.nameList ++ [name])
      let heap2 : Nat → String := fun t => if t = tag then name else s.heap t
      { state := { heap := heap2, list := s.list, nameList := nameList2 }
        events := [⟨index, 1, 1⟩]
        error := none }

/-- `TagList::get_with_name(name)` (src/src/session/tag_list.rs lines
164-168): `name_list.get_index_of(name)` then `list.get_index(index)`. -/
def TagList.get_with_name (s : TagList) (name : String) : Option Nat :=
  (posOf name s.nameList).bind fun index => s.list.get? index

/-- `TagList::contains_with_name(name)` (src/src/session/tag_list.rs lines
170-173). -/
def TagList.contains_with_name (s : TagList) (name : String) : Bool :=
  decide (name ∈ s.nameList)

/-! ### Operation sequences over a TagList -/

/-- One public mutation of the tag registry. -/
inductive TagOp where
  | append (tag : Nat)
  | remove (tag : Nat)
  | rename (tag : Nat) (name : String)
deriving DecidableEq, Repr

/-- State after one operation (notifications and error dropped; the source
keeps the object alive after a `bail!`). -/
def TagList.step (s : TagList) : TagOp → TagList
  | .append t => (s.append t).state
  | .remove t => (s.remove t).state
  | .rename t n => (s.rename_tag t n).state

/-- State after a sequence of operations. -/
def TagList.run (s : TagList) : List TagOp → TagList
  | [] => s
  | op :: ops => (s.step op).run ops

/-- A sequence is valid when every `remove` is called with a tag currently
in the registry (the precondition under which the source's `remove` is
atomic). -/
def TagList.validOps (s : TagList) : List TagOp → Bool
  | [] => true
  | op :: ops =>
    (match op with
     | .remove t => decide (t ∈ s.list)
     | _ => true) && (s.step op).validOps ops

/-- The registry invariant: the ordered tag sequence and the name index are
duplicate-free and aligned — the name at position `i` is the name of the
tag at position `i`. -/
def TagList.Inv (s : TagList) : Prop :=
  s.list.Nodup ∧ s.nameList.Nodup ∧ s.nameList = s.list.map s.heap

/-! ### Lemmas about the `IndexSet` helpers -/

theorem posOf_get? {α : Type} [DecidableEq α] :
    ∀ {l : List α} {x : α} {i : Nat}, posOf x l = some i → l.get? i = some x := by
  intro l
  induction l with
  | nil => intro x i h; simp [posOf] at h
  | cons y ys ih =>
    intro x i h
    unfold posOf at h
    by_cases hy : y = x
    · rw [if_pos hy] at h
      cases h
      simp [hy]
    · rw [if_neg hy] at h
      rcases Option.map_eq_some'.mp h with ⟨j, hj, rfl⟩
      exact ih hj

theorem posOf_mem {α : Type} [DecidableEq α] {l : List α} {x : α} {i : Nat}
    (h : posOf x l = some i) : x ∈ l :=
  List.get?_mem (posOf_get? h)

theorem posOf_lt_length {α : Type} [DecidableEq α] {l : List α} {x : α} {i : Nat}
    (h : posOf x l = some i) : i < l.length :=
  (List.get?_eq_some.mp (posOf_get? h)).1

theorem posOf_eq_some_of_mem {α : Type} [DecidableEq α] :
    ∀ {l : List α} {x : α}, x ∈ l → ∃ i, posOf x l = some i := by
  intro l
  induction l with
  | nil => intro x h; exact absurd h (List.not_mem_nil x)
  | cons y ys ih =>
    intro x h
    by_cases hy : y = x
    · exact ⟨0, by simp [posOf, hy]⟩
    · have hx : x ∈ ys := by
        rcases List.mem_cons.mp h with h' | h'
        · exact absurd h'.symm hy
        · exact h'
      rcases ih hx with ⟨j, hj⟩
      exact ⟨j + 1, by simp [posOf, hy, hj]⟩

theorem posOf_append_left {α : Type} [DecidableEq α] :
    ∀ {l : List α} {x : α} {i : Nat}, posOf x l = some i →
      ∀ (l' : List α), posOf x (l ++ l') = some i := by
  intro l
  induction l with
  | nil => intro x i h; simp [posOf] at h
  | cons y ys ih =>
    intro x i h l'
    simp only [posOf] at h
    simp only [List.cons_append, posOf]
    by_cases hy : y = x
    · rw [if_pos hy] at h; rw [if_pos hy]; exact h
    · rw [if_neg hy] at h
      rcases Option.map_eq_some'.mp h with ⟨j, hj, rfl⟩
      rw [if_neg hy, List.append_eq, ih hj l']
      rfl

theorem posOf_map {α β : Type} [DecidableEq α] [DecidableEq β] {f : α → β} :
    ∀ {l : List α} {x : α} {i : Nat}, (l.map f).Nodup → posOf x l = some i →
      posOf (f x) (l.map f) = some i := by
  intro l
  induction l with
  | nil => intro x i _ h; simp [posOf] at h
  | cons y ys ih =>
    intro x i hnd h
    rw [List.map_cons] at hnd
    have hnd' := List.nodup_cons.mp hnd
    simp only [posOf] at h
    simp only [List.map_cons, posOf]
    by_cases hy : y = x
    · rw [if_pos hy] at h
      rw [if_pos (congrArg f hy)]
      exact h
    · rw [if_neg hy] at h
      rcases Option.map_eq_some'.mp h with ⟨j, hj, rfl⟩
      have hxm : f x ∈ ys.map f := List.mem_map_of_mem f (posOf_mem hj)
      have hfy : ¬ f y = f x := fun hEq => hnd'.1 (hEq ▸ hxm)
      rw [if_neg hfy, ih hnd'.2 hj]
      rfl

theorem removeFirst_sublist {α : Type} [DecidableEq α] (x : α) :
    ∀ (l : List α), List.Sublist (removeFirst x l) l := by
  intro l
  induction l with
  | nil => simp [removeFirst]
  | cons y ys ih =>
    simp only [removeFirst]
    by_cases hy : y = x
    · rw [if_pos hy]; exact List.sublist_cons_self y ys
    · rw [if_neg hy]; exact List.Sublist.cons₂ y ih

theorem removeFirst_nodup {α : Type} [DecidableEq α] (x : α) {l : List α}
    (h : l.Nodup) : (removeFirst x l).Nodup :=
  h.sublist (removeFirst_sublist x l)

theorem removeFirst_map {α β : Type} [DecidableEq α] [DecidableEq β] {f : α → β} :
    ∀ {l : List α} {x : α}, (l.map f).Nodup → x ∈ l →
      removeFirst (f x) (l.map f) = (removeFirst x l).map f := by
  intro l
  induction l with
  | nil => intro x _ h; exact absurd h (List.not_mem_nil x)
  | cons y ys ih =>
    intro x hnd hm
    rw [List.map_cons] at hnd
    have hnd' := List.nodup_cons.mp hnd
    by_cases hy : y = x
    · simp only [List.map_cons, removeFirst, if_pos hy, if_pos (congrArg f hy)]
    · have hx : x ∈ ys := by
        rcases List.mem_cons.mp hm with h' | h'
        · exact absurd h'.symm hy
        · exact h'
      have hfy : ¬ f y = f x := fun hEq => hnd'.1 (hEq ▸ List.mem_map_of_mem f hx)
      simp only [List.map_cons, removeFirst, if_neg hy, if_neg hfy]
      rw [ih hnd'.2 hx]

theorem nodup_set {α : Type} {a : α} :
    ∀ {l : List α} {i : Nat}, l.Nodup → a ∉ l → (l.set i a).Nodup := by
  intro l
  induction l with
  | nil => intro i _ _; simp
  | cons y ys ih =>
    intro i hnd ha
    have hnd' := List.nodup_cons.mp hnd
    have ha' : a ∉ ys := fun h => ha (List.mem_cons_of_mem y h)
    match i with
    | 0 =>
      rw [List.set_cons_zero]
      exact List.nodup_cons.mpr ⟨ha', hnd'.2⟩
    | i + 1 =>
      rw [List.set_cons_succ]
      refine List.nodup_cons.mpr ⟨?_, ih hnd'.2 ha'⟩
      intro hy
      rcases List.mem_or_eq_of_mem_set hy with h' | h'
      · exact hnd'.1 h'
      · exact ha (h' ▸ List.mem_cons_self y ys)

theorem swapRemove_append {α : Type} [DecidableEq α] {x a : α} {l : List α} {i : Nat}
    (hpos : posOf x l = some i) :
    swapRemove x (l ++ [a]) = l.set i a := by
  have hi : i < l.length := posOf_lt_length hpos
  have h1 : posOf x (l ++ [a]) = some i := posOf_append_left hpos [a]
  have hlast : (l ++ [a]).getLast? = some a := by simp
  unfold swapRemove
  rw [h1, hlast]
  show ((l ++ [a]).set i a).dropLast = l.set i a
  rw [List.set_append_left _ _ hi]
  simp

theorem set_map_update {α β : Type} [DecidableEq α] {f : α → β} {t : α} {n : β} :
    ∀ {l : List α} {i : Nat}, l.Nodup → posOf t l = some i →
      l.map (fun y => if y = t then n else f y) = (l.map f).set i n := by
  intro l
  induction l with
  | nil => intro i _ h; simp [posOf] at h
  | cons y ys ih =>
    intro i hnd h
    have hnd' := List.nodup_cons.mp hnd
    unfold posOf at h
    by_cases hy : y = t
    · rw [if_pos hy] at h
      cases h
      rw [List.map_cons, List.map_cons, List.set_cons_zero, if_pos hy]
      congr 1
      refine List.map_congr_left ?_
      intro z hz
      have hz' : ¬ z = t := fun hEq => hnd'.1 (hy ▸ hEq ▸ hz)
      rw [if_neg hz']
    · rw [if_neg hy] at h
      rcases Option.map_eq_some'.mp h with ⟨j, hj, rfl⟩
      rw [List.map_cons, List.map_cons, List.set_cons_succ, if_neg hy, ih hnd'.2 hj]

/-! ### Branch equations for the TagList operations -/

theorem append_eq_empty {s : TagList} {t : Nat} (h : s.heap t = "") :
    s.append t = { state := s, events := [], error := some "Tag name cannot be empty" } := by
  unfold TagList.append
  rw [if_pos h]

theorem append_eq_dup {s : TagList} {t : Nat} (h1 : s.heap t ≠ "")
    (h2 : s.heap t ∈ s.nameList) :
    s.append t
      = { state := s, events := [], error := some "Cannot append exisiting tag name" } := by
  unfold TagList.append
  rw [if_neg h1, if_pos h2]

theorem append_eq_fresh {s : TagList} {t : Nat} (h1 : s.heap t ≠ "")
    (h2 : s.heap t ∉ s.nameList) (h3 : t ∉ s.list) :
    s.append t
      = { state := { heap := s.heap, list := s.list ++ [t],
                     nameList := s.nameList ++ [s.heap t] },
          events := [⟨(s.list ++ [t]).length - 1, 0, 1⟩], error := none } := by
  unfold TagList.append
  rw [if_neg h1, if_neg h2]
  simp only [if_neg h3, TagList.n_items]

theorem remove_eq_mem {s : TagList} {t : Nat} {i : Nat}
    (hname : s.heap t ∈ s.nameList) (hpos : posOf t s.list = some i) :
    s.remove t
      = { state := { heap := s.heap, list := removeFirst t s.list,
                     nameList := removeFirst (s.heap t) s.nameList },
          events := [⟨i, 1, 0⟩], error := none } := by
  unfold TagList.remove
  rw [if_pos hname]
  show (match posOf t s.list with
        | some position =>
          ({ state := { heap := s.heap, list := removeFirst t s.list,
                        nameList := removeFirst (s.heap t) s.nameList },
             events := [⟨position, 1, 0⟩], error := none } : TagListResult)
        | none =>
          { state := { heap := s.heap, list := s.list,
                       nameList := removeFirst (s.heap t) s.nameList },
            events := [], error := some "Cannot remove tag that doesnt exist" }) = _
  rw [hpos]

theorem remove_eq_ghost {s : TagList} {t : Nat}
    (hname : s.heap t ∈ s.nameList) (hpos : posOf t s.list = none) :
    s.remove t
      = { state := { heap := s.heap, list := s.list,
                     nameList := removeFirst (s.heap t) s.nameList },
          events := [], error := some "Cannot remove tag that doesnt exist" } := by
  unfold TagList.remove
  rw [if_pos hname]
  show (match posOf t s.list with
        | some position =>
          ({ state := { heap := s.heap, list := removeFirst t s.list,
                        nameList := removeFirst (s.heap t) s.nameList },
             events := [⟨position, 1, 0⟩], error := none } : TagListResult)
        | none =>
          { state := { heap := s.heap, list := s.list,
                       nameList := removeFirst (s.heap t) s.nameList },
            events := [], error := some "Cannot remove tag that doesnt exist" }) = _
  rw [hpos]

theorem remove_eq_missing {s : TagList} {t : Nat} (hname : s.heap t ∉ s.nameList) :
    s.remove t
      = { state := s, events := [],
          error := some "Cannot remove tag name that doesnt exist" } := by
  unfold TagList.remove
  rw [if_neg hname]

theorem rename_eq_dup {s : TagList} {t : Nat} {n : String} (h : n ∈ s.nameList) :
    s.rename_tag t n
      = { state := s, events := [],
          error := some "Cannot rename a tag that already exist" } := by
  unfold TagList.rename_tag
  rw [if_pos h]

theorem rename_eq_empty {s : TagList} {t : Nat} (h1 : "" ∉ s.nameList) :
    s.rename_tag t ""
      = { state := s, events := [], error := some "Tag name cannot be empty" } := by
  unfold TagList.rename_tag
  rw [if_neg h1, if_pos rfl]

theorem rename_eq_panic {s : TagList} {t : Nat} {n : String}
    (h1 : n ∉ s.nameList) (h2 : n ≠ "") (hpos : posOf t s.list = none) :
    s.rename_tag t n
      = { state := s, events := [],
          error := some "panicked: called Option::unwrap on a None value" } := by
  unfold TagList.rename_tag
  rw [if_neg h1, if_neg h2, hpos]

theorem rename_eq_ok {s : TagList} {t : Nat} {n : String} {i : Nat}
    (h1 : n ∉ s.nameList) (h2 : n ≠ "") (hpos : posOf t s.list = some i) :
    s.rename_tag t n
      = { state := { heap := fun u => if u = t then n else s.heap u, list := s.list,
                     nameList := swapRemove (s.heap t) (s.nameList ++ [n]) },
          events := [⟨i, 1, 1⟩], error := none } := by
  unfold TagList.rename_tag
  rw [if_neg h1, if_neg h2, hpos]

/-! ### Preservation of the registry invariant -/

theorem inv_init (heap : Nat → String) : (TagList.init heap).Inv :=
  ⟨List.nodup_nil, List.nodup_nil, rfl⟩

theorem inv_append {s : TagList} (t : Nat) (h : s.Inv) : (s.append t).state.Inv := by
  obtain ⟨hl, hn, he⟩ := h
  by_cases h1 : s.heap t = ""
  · rw [append_eq_empty h1]; exact ⟨hl, hn, he⟩
  · by_cases h2 : s.heap t ∈ s.nameList
    · rw [append_eq_dup h1 h2]; exact ⟨hl, hn, he⟩
    · have ht : t ∉ s.list := fun hm => h2 (he ▸ List.mem_map_of_mem s.heap hm)
      rw [append_eq_fresh h1 h2 ht]
      refine ⟨?_, ?_, ?_⟩
      · exact List.nodup_append.mpr ⟨hl, List.nodup_singleton t, by
          simp [List.disjoint_singleton, ht]⟩
      · exact List.nodup_append.mpr ⟨hn, List.nodup_singleton _, by
          simp [List.disjoint_singleton, h2]⟩
      · show s.nameList ++ [s.heap t] = (s.list ++ [t]).map s.heap
        rw [List.map_append, he]
        rfl

theorem remove_of_mem {s : TagList} {t : Nat} (h : s.Inv) (hm : t ∈ s.list) :
    (s.remove t).state.Inv ∧ (s.remove t).error = none := by
  obtain ⟨hl, hn, he⟩ := h
  have hname : s.heap t ∈ s.nameList := he ▸ List.mem_map_of_mem s.heap hm
  rcases posOf_eq_some_of_mem hm with ⟨i, hi⟩
  rw [remove_eq_mem hname hi]
  refine ⟨⟨removeFirst_nodup t hl, removeFirst_nodup _ hn, ?_⟩, rfl⟩
  show removeFirst (s.heap t) s.nameList = (removeFirst t s.list).map s.heap
  rw [he, removeFirst_map (he ▸ hn) hm]

theorem inv_rename {s : TagList} (t : Nat) (n : String) (h : s.Inv) :
    (s.rename_tag t n).state.Inv := by
  obtain ⟨hl, hn, he⟩ := h
  by_cases h1 : n ∈ s.nameList
  · rw [rename_eq_dup h1]; exact ⟨hl, hn, he⟩
  · by_cases h2 : n = ""
    · subst h2; rw [rename_eq_empty h1]; exact ⟨hl, hn, he⟩
    · cases hpos : posOf t s.list with
      | none => rw [rename_eq_panic h1 h2 hpos]; exact ⟨hl, hn, he⟩
      | some i =>
        rw [rename_eq_ok h1 h2 hpos]
        have hm : t ∈ s.list := posOf_mem hpos
        have hposName : posOf (s.heap t) s.nameList = some i := by
          rw [he]; exact posOf_map (he ▸ hn) hpos
        refine ⟨hl, ?_, ?_⟩
        · show (swapRemove (s.heap t) (s.nameList ++ [n])).Nodup
          rw [swapRemove_append hposName]
          exact nodup_set hn h1
        · show swapRemove (s.heap t) (s.nameList ++ [n])
            = s.list.map fun u => if u = t then n else s.heap u
          rw [swapRemove_append hposName, he, set_map_update hl hpos]

theorem inv_step {s : TagList} {op : TagOp}
    (h : s.Inv) (hv : match op with | .remove t => t ∈ s.list | _ => True) :
    (s.step op).Inv := by
  cases op with
  | append t => exact inv_append t h
  | remove t => exact (remove_of_mem h hv).1
  | rename t n => exact inv_rename t n h

theorem inv_run {s : TagList} {ops : List TagOp}
    (h : s.Inv) (hv : s.validOps ops = true) : (s.run ops).Inv := by
  induction ops generalizing s with
  | nil => exact h
  | cons op ops ih =>
    have hv' := hv
    simp only [TagList.validOps, Bool.and_eq_true] at hv'
    refine ih ?_ hv'.2
    refine inv_step h ?_
    cases op with
    | append t => trivial
    | remove t => exact of_decide_eq_true hv'.1
    | rename t n => trivial

/-- Under the invariant, the name index is consistent: every registered
tag is found again under its own name, at its own position. -/
theorem get_with_name_of_inv {s : TagList} (h : s.Inv) {t : Nat} (hm : t ∈ s.list) :
    s.get_with_name (s.heap t) = some t ∧
    posOf (s.heap t) s.nameList = posOf t s.list := by
  obtain ⟨hl, hn, he⟩ := h
  rcases posOf_eq_some_of_mem hm with ⟨i, hi⟩
  have hposName : posOf (s.heap t) s.nameList = some i := by
    rw [he]; exact posOf_map (he ▸ hn) hi
  constructor
  · unfold TagList.get_with_name
    rw [hposName]
    exact posOf_get? hi
  · rw [hposName, hi]

/-! ### Claims about the tag registry -/

/-- C1 (amended): for every sequence of `append`, `remove` and `rename_tag`
operations in which each `remove` is called with a tag currently in the
registry, the name index stays consistent with the ordered sequence: after
the sequence, every registered tag is returned by `get_with_name` under its
own name, and the position recorded for the name equals the tag's position
in the ordered sequence. (The restriction on `remove` is forced: see the
counterexample, where a `remove` of an absent tag whose name collides with
a registered one leaves the two structures misaligned.) -/
theorem tag_index_consistent_for_valid_sequences
    (heap0 : Nat → String) (ops : List TagOp)
    (hv : (TagList.init heap0).validOps ops = true) :
    ∀ t ∈ ((TagList.init heap0).run ops).list,
      ((TagList.init heap0).run ops).get_with_name
          (((TagList.init heap0).run ops).heap t) = some t ∧
      posOf (((TagList.init heap0).run ops).heap t)
          ((TagList.init heap0).run ops).nameList
        = posOf t ((TagList.init heap0).run ops).list := by
  intro t hm
  exact get_with_name_of_inv (inv_run (inv_init heap0) hv) hm

/-- Witness for C1: the valid sequence `append 1, append 2, rename 2 "play",
remove 1` on tags named `work` and `job` keeps the index consistent. -/
theorem tag_index_consistent_for_valid_sequences_witness :
    (TagList.init (fun u => if u = 1 then "work" else "job")).validOps
        [TagOp.append 1, TagOp.append 2, TagOp.rename 2 "play", TagOp.remove 1] = true ∧
    ∀ t ∈ ((TagList.init (fun u => if u = 1 then "work" else "job")).run
        [TagOp.append 1, TagOp.append 2, TagOp.rename 2 "play", TagOp.remove 1]).list,
      ((TagList.init (fun u => if u = 1 then "work" else "job")).run
          [TagOp.append 1, TagOp.append 2, TagOp.rename 2 "play", TagOp.remove 1]).get_with_name
          (((TagList.init (fun u => if u = 1 then "work" else "job")).run
            [TagOp.append 1, TagOp.append 2, TagOp.rename 2 "play", TagOp.remove 1]).heap t)
        = some t ∧
      posOf (((TagList.init (fun u => if u = 1 then "work" else "job")).run
            [TagOp.append 1, TagOp.append 2, TagOp.rename 2 "play", TagOp.remove 1]).heap t)
          (((TagList.init (fun u => if u = 1 then "work" else "job")).run
            [TagOp.append 1, TagOp.append 2, TagOp.rename 2 "play", TagOp.remove 1]).nameList)
        = posOf t (((TagList.init (fun u => if u = 1 then "work" else "job")).run
            [TagOp.append 1, TagOp.append 2, TagOp.rename 2 "play", TagOp.remove 1]).list) :=
  ⟨by decide,
   tag_index_consistent_for_valid_sequences (fun u => if u = 1 then "work" else "job")
     [TagOp.append 1, TagOp.append 2, TagOp.rename 2 "play", TagOp.remove 1] (by decide)⟩

/-- Counterexample for C1 as frozen: after `append 1` (named "a"),
`append 2` (named "b") and `remove 3` — where tag 3 is NOT in the registry
but its name "a" is — the name `name_list` was already mutated when the
`bail!` fired, so the registered tag 2 is no longer found under its own
name: `get_with_name "b"` returns tag 1 instead. -/
theorem tag_index_consistent_counterexample :
    2 ∈ ((TagList.init (fun u => if u = 2 then "b" else "a")).run
        [TagOp.append 1, TagOp.append 2, TagOp.remove 3]).list ∧
    ¬ ((TagList.init (fun u => if u = 2 then "b" else "a")).run
          [TagOp.append 1, TagOp.append 2, TagOp.remove 3]).get_with_name
        (((TagList.init (fun u => if u = 2 then "b" else "a")).run
          [TagOp.append 1, TagOp.append 2, TagOp.remove 3]).heap 2) = some 2 := by
  decide

/-- C6 (amended): `rename_tag` fails with the duplicate-name error whenever
the new name is already in the registry — whether it belongs to a
different tag or is the renamed tag's own current name. The "no-op
success" for renaming to the current name claimed by the spec does not
exist: the duplicate check fires first (see the counterexample). -/
theorem rename_to_existing_name_fails {s : TagList} {t : Nat} {n : String}
    (h : n ∈ s.nameList) :
    s.rename_tag t n
      = { state := s, events := [],
          error := some "Cannot rename a tag that already exist" } :=
  rename_eq_dup h

/-- Witness for C6: renaming tag 1 (named "work") to the other tag's name
"job" fails with the duplicate error and changes nothing. -/
theorem rename_to_existing_name_fails_witness :
    "job" ∈ ((TagList.init (fun u => if u = 1 then "work" else "job")).run
        [TagOp.append 1, TagOp.append 2]).nameList ∧
    ((TagList.init (fun u => if u = 1 then "work" else "job")).run
        [TagOp.append 1, TagOp.append 2]).rename_tag 1 "job"
      = { state := (TagList.init (fun u => if u = 1 then "work" else "job")).run
            [TagOp.append 1, TagOp.append 2],
          events := [],
          error := some "Cannot rename a tag that already exist" } :=
  ⟨by decide, rename_to_existing_name_fails (by decide)⟩

/-- Counterexample for C6 as frozen: renaming the single tag 1 (named
"work") to its own current name "work" does NOT succeed as a no-op — it
fails with the duplicate-name error. -/
theorem rename_to_same_name_counterexample :
    ¬ ((((TagList.init (fun _ => "work")).run [TagOp.append 1]).rename_tag 1 "work").error
        = none) ∧
    ((((TagList.init (fun _ => "work")).run [TagOp.append 1]).rename_tag 1 "work").error
        = some "Cannot rename a tag that already exist") := by
  decide

/-- C7: appending a fresh tag and renaming it to a fresh non-empty name
emits exactly one `items_changed(position, 1, 1)` content-change event at
the tag's original position (position 0 here), no insert or remove events,
keeps the tag's position unchanged, makes it retrievable under the new
name and absent under the old one. -/
theorem rename_fresh_emits_one_content_change
    (heap0 : Nat → String) (t : Nat) (n : String)
    (h1 : heap0 t ≠ "") (h2 : n ≠ heap0 t) (h3 : n ≠ "") :
    ((TagList.init heap0).append t).events = [⟨0, 0, 1⟩] ∧
    (((TagList.init heap0).append t).state.rename_tag t n).events = [⟨0, 1, 1⟩] ∧
    (((TagList.init heap0).append t).state.rename_tag t n).error = none ∧
    (∀ e ∈ (((TagList.init heap0).append t).state.rename_tag t n).events,
        e.removed = 1 ∧ e.inserted = 1) ∧
    posOf t (((TagList.init heap0).append t).state.rename_tag t n).state.list
        = posOf t ((TagList.init heap0).append t).state.list ∧
    (((TagList.init heap0).append t).state.rename_tag t n).state.get_with_name n
        = some t ∧
    (((TagList.init heap0).append t).state.rename_tag t n).state.contains_with_name
        (heap0 t) = false := by
  have e1 : (TagList.init heap0).append t
      = { state := { heap := heap0, list := [t], nameList := [heap0 t] },
          events := [⟨0, 0, 1⟩], error := none } := by
    have h := append_eq_fresh (s := TagList.init heap0) (t := t) h1
      (List.not_mem_nil _) (List.not_mem_nil _)
    simpa [TagList.init] using h
  have hpos : posOf t [t] = some 0 := by simp [posOf]
  have hnm : n ∉ [heap0 t] := by simp [h2]
  have hsw : swapRemove (heap0 t) ([heap0 t] ++ [n]) = [n] := by
    have hp : posOf (heap0 t) [heap0 t] = some 0 := by simp [posOf]
    rw [swapRemove_append hp]
    rfl
  have e2 : ({ heap := heap0, list := [t], nameList := [heap0 t] } : TagList).rename_tag t n
      = { state := { heap := fun u => if u = t then n else heap0 u, list := [t],
                     nameList := [n] },
          events := [⟨0, 1, 1⟩], error := none } := by
    have h := rename_eq_ok (s := { heap := heap0, list := [t], nameList := [heap0 t] })
      hnm h3 hpos
    rw [h, hsw]
  rw [e1]
  simp only [e2]
  refine ⟨trivial, trivial, trivial, ?_, trivial, ?_, ?_⟩
  · intro e he
    rw [List.mem_singleton] at he
    subst he
    exact ⟨rfl, rfl⟩
  · simp [TagList.get_with_name, posOf]
  · simp [TagList.contains_with_name, Ne.symm h2]

/-- Witness for C7: append tag 1 named "work", rename it to "job". -/
theorem rename_fresh_emits_one_content_change_witness :
    ((TagList.init (fun _ => "work")).append 1).events = [⟨0, 0, 1⟩] ∧
    (((TagList.init (fun _ => "work")).append 1).state.rename_tag 1 "job").events
        = [⟨0, 1, 1⟩] ∧
    (((TagList.init (fun _ => "work")).append 1).state.rename_tag 1 "job").error = none ∧
    (∀ e ∈ (((TagList.init (fun _ => "work")).append 1).state.rename_tag 1 "job").events,
        e.removed = 1 ∧ e.inserted = 1) ∧
    posOf 1 (((TagList.init (fun _ => "work")).append 1).state.rename_tag 1 "job").state.list
        = posOf 1 ((TagList.init (fun _ => "work")).append 1).state.list ∧
    (((TagList.init (fun _ => "work")).append 1).state.rename_tag 1 "job").state.get_with_name
        "job" = some 1 ∧
    (((TagList.init (fun _ => "work")).append 1).state.rename_tag 1 "job").state.contains_with_name
        "work" = false :=
  rename_fresh_emits_one_content_change (fun _ => "work") 1 "job"
    (by decide) (by decide) (by decide)

/-- C10: appending a tag whose name is the empty string fails before any
mutation: the state is returned unchanged and no `items_changed`
notification is emitted. -/
theorem append_empty_name_rejected (s : TagList) (t : Nat) (h : s.heap t = "") :
    s.append t = { state := s, events := [], error := some "Tag name cannot be empty" } :=
  append_eq_empty h

/-- Witness for C10: appending tag 0 with the empty name to a fresh list. -/
theorem append_empty_name_rejected_witness :
    (TagList.init (fun _ => "")).heap 0 = "" ∧
    (TagList.init (fun _ => "")).append 0
      = { state := TagList.init (fun _ => ""), events := [],
          error := some "Tag name cannot be empty" } :=
  ⟨rfl, append_empty_name_rejected _ 0 rfl⟩

/-! ## Note metadata (src/src/session/note/metadata.rs)

`imp::Metadata` holds `title: RefCell<String>`, `last_modified:
RefCell<Date>`, `is_pinned: Cell<bool>`. `Date` (`crate::date::Date`) is
not among the provided sources; per the spec it is an ISO-8601-like
timestamp string, so it is modelled as a `String` (its default — the epoch
timestamp — as `""`). The GObject property system's current time
(`Date::now()`) is passed explicitly as `now`. -/

structure Metadata where
  title : String
  last_modified : String
  is_pinned : Bool
deriving DecidableEq, Repr

/-- The value of `#[derive(Default)]` for `imp::Metadata`. -/
def Metadata.default : Metadata :=
  { title := "", last_modified := "", is_pinned := false }

/-- A settable GObject property of `NwtyNoteMetadata` with its value. -/
inductive MetaProp where
  | title (value : String)
  | lastModified (value : String)
  | isPinned (value : Bool)

/-- `Metadata::update_last_modified` — `set_property("last-modified", Date::now())`. -/
def Metadata.update_last_modified (m : Metadata) (now : String) : Metadata :=
  { m with last_modified := now }

/-- The `set_property` dispatch (metadata.rs lines 62-86): the `"title"`
branch replaces the title and then calls `update_last_modified`; the
`"last-modified"` and `"is-pinned"` branches only store the value. -/
def Metadata.set_property (m : Metadata) (now : String) : MetaProp → Metadata
  | .title v => ({ m with title := v }).update_last_modified now
  | .lastModified v => { m with last_modified := v }
  | .isPinned v => { m with is_pinned := v }

/-- `Metadata::set_title` (metadata.rs lines 108-110). -/
def Metadata.set_title (m : Metadata) (now : String) (title : String) : Metadata :=
  m.set_property now (.title title)

/-- `Metadata::set_is_pinned` (metadata.rs lines 124-126). -/
def Metadata.set_is_pinned (m : Metadata) (now : String) (value : Bool) : Metadata :=
  m.set_property now (.isPinned value)

/-- C9 (amended): `set_title` updates `last_modified` to the current time
(through the `"title"` property branch calling `update_last_modified`),
but `set_is_pinned` does NOT — the `"is-pinned"` branch stores the flag
and leaves `last_modified` untouched. -/
theorem set_title_touches_last_modified_set_is_pinned_does_not
    (m : Metadata) (now title : String) (value : Bool) :
    (m.set_title now title).last_modified = now ∧
    (m.set_title now title).title = title ∧
    (m.set_is_pinned now value).is_pinned = value ∧
    (m.set_is_pinned now value).last_modified = m.last_modified :=
  ⟨rfl, rfl, rfl, rfl⟩

/-- Counterexample for C9 as frozen: pinning a note whose metadata was
last modified at "t0" at current time "t1" leaves `last_modified` at
"t0", not "t1". -/
theorem set_is_pinned_counterexample :
    ¬ ((Metadata.mk "some title" "t0" false).set_is_pinned "t1" true).last_modified
        = "t1" := by
  decide

/-! ## Note serialization (src/src/session/note/mod.rs)

`Note::serialize` (lines 183-195) writes `serde_yaml::to_vec(&metadata)`
— which emits the `---` document marker, then one `key: value` line per
field of `imp::Metadata` in declaration order (`title`, `last_modified`,
`is_pinned`), plain scalars unquoted — then appends the literal `"---\n"`,
then the buffer text.

`Note::deserialize_from_file` (lines 148-181) feeds the file through
`Matter::<YAML>::new().parse`. The front-matter parser is the external
`gray_matter` crate, not part of this repository; it is modelled from the
spec (§6): "optional YAML front-matter delimited by `---` lines, followed
by Markdown body" — the block between the opening `---` line and the
first following `---` line is the metadata, everything after that line is
the content. The YAML engine types unquoted scalars: `true`/`false` are
booleans, digit strings are integers (payload kept as the raw text, the
numeric value is never used), empty is null, anything else a string;
`Pod::as_string` fails on every non-string.

String splitting/joining on newlines is defined by structural recursion
on the character list so that every definition evaluates by `decide`. -/

/-- Split a character list at every newline. Never returns `[]`. -/
def splitLinesChars : List Char → List (List Char)
  | [] => [[]]
  | c :: cs =>
    if c = '\n' then [] :: splitLinesChars cs
    else
      match splitLinesChars cs with
      | [] => [[c]]
      | l :: ls => (c :: l) :: ls

/-- Join lines with newlines; inverse of `splitLinesChars`. -/
def joinNLChars : List (List Char) → List Char
  | [] => []
  | [l] => l
  | l :: ls => l ++ '\n' :: joinNLChars ls

/-- The lines of a string. -/
def splitLines (s : String) : List String :=
  (splitLinesChars s.data).map String.mk

/-- Rebuild a string from its lines. -/
def unsplitLines (ls : List String) : String :=
  String.mk (joinNLChars (ls.map String.data))

/-- Join a line list with newlines (used by the serializer). -/
def joinNL (ls : List String) : String :=
  unsplitLines ls

/-- A YAML value as converted by the gray_matter engine into its dynamic
`Pod` representation. -/
inductive Pod where
  | string (s : String)
  | int (raw : String)
  | bool (b : Bool)
  | null
deriving DecidableEq, Repr

deriving instance DecidableEq for Except

/-- `Pod::as_string`: succeeds only on `Pod::String`. -/
def Pod.as_string : Pod → Option String
  | .string s => some s
  | _ => none

/-- YAML scalar typing of an unquoted value. -/
def podOfScalar (s : String) : Pod :=
  if s = "" then .null
  else if s = "true" then .bool true
  else if s = "false" then .bool false
  else if s.data.all Char.isDigit then .int s
  else .string s

/-- Split a line at the first `": "` into key and value. -/
def splitKVChars : List Char → Option (List Char × List Char)
  | [] => none
  | ':' :: ' ' :: rest => some ([], rest)
  | c :: rest => (splitKVChars rest).map fun p => (c :: p.1, p.2)

/-- Parse one front-matter line as `key: value`. -/
def parseKVLine (line : String) : Option (String × Pod) :=
  (splitKVChars line.data).map fun p => (String.mk p.1, podOfScalar (String.mk p.2))

/-- Lines strictly before the first `"---"` line, and the lines after it. -/
def splitAtDelim : List String → Option (List String × List String)
  | [] => none
  | l :: ls =>
    if l = "---" then some ([], ls)
    else (splitAtDelim ls).map fun p => (l :: p.1, p.2)

/-- The front-matter split: if the document starts with a `---` line and a
second `---` line follows, the lines between them are parsed as key-value
metadata and the remainder is the content; otherwise there is no data and
the whole input is the content. -/
def matterParse (input : String) : Option (List (String × Pod)) × String :=
  match splitLines input with
  | first :: rest =>
    if first = "---" then
      match splitAtDelim rest with
      | some (fmLines, bodyLines) =>
        (some (fmLines.filterMap parseKVLine), unsplitLines bodyLines)
      | none => (none, input)
    else (none, input)
  | [] => (none, input)

/-- One field read of `deserialize_from_file`:
`data.get(key).map(|t| t.as_string().unwrap()).unwrap_or_default()` — a
missing key defaults to `""`, a present non-string value panics. -/
def getStringField (kvs : List (String × Pod)) (key : String) : Except String String :=
  match kvs.lookup key with
  | none => .ok ""
  | some p =>
    match p.as_string with
    | some s => .ok s
    | none => .error "panicked: called Result::unwrap on an Err value"

/-- `Note::deserialize_from_file` (note/mod.rs lines 148-181): front-matter
parse, then `Metadata::new(title, modified)` from the `"title"` and
`"modified"` keys — `is_pinned` is never read and stays at its default.
The error case models the `unwrap` panic on a non-string field. -/
def deserialize_from_file (input : String) : Except String (Metadata × String) :=
  match matterParse input with
  | (none, content) => .ok (Metadata.default, content)
  | (some kvs, content) => do
    let title ← getStringField kvs "title"
    let modified ← getStringField kvs "modified"
    .ok ({ title := title, last_modified := modified, is_pinned := false }, content)

/-- The metadata block emitted by `serde_yaml::to_vec(&metadata)` plus the
closing separator line appended by `Note::serialize`. -/
def serializeLines (m : Metadata) : List String :=
  ["---",
   "title: " ++ m.title,
   "last_modified: " ++ m.last_modified,
   "is_pinned: " ++ (if m.is_pinned then "true" else "false"),
   "---"]

/-- `Note::serialize` (note/mod.rs lines 183-195): the YAML metadata block,
the literal `"---\n"` separator, then the body text. -/
def serialize (m : Metadata) (body : String) : String :=
  joinNL (serializeLines m) ++ "\n" ++ body

/-! ### Lemmas: splitting and joining lines -/

theorem splitLinesChars_ne_nil : ∀ (cs : List Char), splitLinesChars cs ≠ [] := by
  intro cs
  induction cs with
  | nil => simp [splitLinesChars]
  | cons c cs ih =>
    simp only [splitLinesChars]
    by_cases hc : c = '\n'
    · rw [if_pos hc]; simp
    · rw [if_neg hc]
      cases h : splitLinesChars cs with
      | nil => simp
      | cons l ls => simp

theorem joinNLChars_splitLinesChars : ∀ (cs : List Char),
    joinNLChars (splitLinesChars cs) = cs := by
  intro cs
  induction cs with
  | nil => rfl
  | cons c cs ih =>
    simp only [splitLinesChars]
    by_cases hc : c = '\n'
    · rw [if_pos hc]
      cases h : splitLinesChars cs with
      | nil => exact absurd h (splitLinesChars_ne_nil cs)
      | cons l ls =>
        rw [h] at ih
        show '\n' :: joinNLChars (l :: ls) = c :: cs
        rw [ih, hc]
    · rw [if_neg hc]
      cases h : splitLinesChars cs with
      | nil => exact absurd h (splitLinesChars_ne_nil cs)
      | cons l ls =>
        rw [h] at ih
        cases ls with
        | nil =>
          show c :: l = c :: cs
          rw [show joinNLChars [l] = l from rfl] at ih
          rw [ih]
        | cons l2 ls2 =>
          show (c :: l) ++ '\n' :: joinNLChars (l2 :: ls2) = c :: cs
          rw [show joinNLChars (l :: l2 :: ls2) = l ++ '\n' :: joinNLChars (l2 :: ls2)
            from rfl] at ih
          rw [List.cons_append, ih]

theorem unsplitLines_splitLines (s : String) : unsplitLines (splitLines s) = s := by
  unfold unsplitLines splitLines
  rw [List.map_map]
  have : (String.data ∘ String.mk) = id := rfl
  rw [this, List.map_id, joinNLChars_splitLinesChars]

theorem splitLinesChars_append_newline :
    ∀ (x y : List Char), (∀ c ∈ x, c ≠ '\n') →
      splitLinesChars (x ++ '\n' :: y) = x :: splitLinesChars y := by
  intro x
  induction x with
  | nil =>
    intro y _
    show splitLinesChars ('\n' :: y) = [] :: splitLinesChars y
    simp [splitLinesChars]
  | cons c x ih =>
    intro y hx
    have hc : c ≠ '\n' := hx c (List.mem_cons_self c x)
    have hx' : ∀ d ∈ x, d ≠ '\n' := fun d hd => hx d (List.mem_cons_of_mem c hd)
    show splitLinesChars (c :: (x ++ '\n' :: y)) = (c :: x) :: splitLinesChars y
    simp only [splitLinesChars, if_neg hc, ih y hx']

theorem no_nl_append {x y : List Char} (hx : ∀ c ∈ x, c ≠ '\n')
    (hy : ∀ c ∈ y, c ≠ '\n') : ∀ c ∈ x ++ y, c ≠ '\n' := by
  intro c hc
  rcases List.mem_append.mp hc with h | h
  · exact hx c h
  · exact hy c h

theorem append_ne_delim {p : String} (s : String) {c : Char} {rest : List Char}
    (hp : p.data = c :: rest) (hc : c ≠ '-') : p ++ s ≠ "---" := by
  intro h
  have h2 : (p ++ s).data = ("---" : String).data := congrArg String.data h
  rw [String.data_append, hp] at h2
  have h3 : ("---" : String).data = ['-', '-', '-'] := rfl
  rw [h3] at h2
  rw [List.cons_append] at h2
  injection h2 with h4 _
  exact hc h4

theorem splitLines_serialize (m : Metadata) (body : String)
    (ht : ∀ c ∈ m.title.data, c ≠ '\n')
    (hm : ∀ c ∈ m.last_modified.data, c ≠ '\n') :
    splitLines (serialize m body)
      = "---" :: ("title: " ++ m.title) :: ("last_modified: " ++ m.last_modified)
          :: ("is_pinned: " ++ (if m.is_pinned then "true" else "false")) :: "---"
          :: splitLines body := by
  have hpin : ∀ c ∈ (if m.is_pinned then "true" else "false" : String).data, c ≠ '\n' := by
    cases m.is_pinned <;> decide
  have hd : (serialize m body).data
      = ("---" : String).data ++ '\n' :: (("title: " ++ m.title).data ++ '\n' ::
        (("last_modified: " ++ m.last_modified).data ++ '\n' ::
        (("is_pinned: " ++ (if m.is_pinned then "true" else "false")).data ++ '\n' ::
        (("---" : String).data ++ '\n' :: body.data)))) := by
    show (joinNL (serializeLines m) ++ "\n" ++ body).data = _
    rw [String.data_append, String.data_append]
    show (joinNLChars [("---" : String).data, ("title: " ++ m.title).data,
        ("last_modified: " ++ m.last_modified).data,
        ("is_pinned: " ++ (if m.is_pinned then "true" else "false")).data,
        ("---" : String).data] ++ ['\n']) ++ body.data = _
    simp only [joinNLChars, List.append_assoc, List.cons_append, List.nil_append]
  unfold splitLines
  rw [hd]
  rw [splitLinesChars_append_newline _ _ (by decide)]
  rw [splitLinesChars_append_newline _ _ (by
    rw [String.data_append]; exact no_nl_append (by decide) ht)]
  rw [splitLinesChars_append_newline _ _ (by
    rw [String.data_append]; exact no_nl_append (by decide) hm)]
  rw [splitLinesChars_append_newline _ _ (by
    rw [String.data_append]; exact no_nl_append (by decide) hpin)]
  rw [splitLinesChars_append_newline _ _ (by decide)]
  rfl

theorem matterParse_serialize (m : Metadata) (body : String)
    (ht : ∀ c ∈ m.title.data, c ≠ '\n')
    (hm : ∀ c ∈ m.last_modified.data, c ≠ '\n') :
    matterParse (serialize m body)
      = (some [("title", podOfScalar m.title),
               ("last_modified", podOfScalar m.last_modified),
               ("is_pinned", podOfScalar (if m.is_pinned then "true" else "false"))],
         unsplitLines (splitLines body)) := by
  have hne1 : ("title: " ++ m.title) ≠ "---" :=
    append_ne_delim m.title (show ("title: " : String).data
      = 't' :: ['i', 't', 'l', 'e', ':', ' '] from rfl) (by decide)
  have hne2 : ("last_modified: " ++ m.last_modified) ≠ "---" :=
    append_ne_delim m.last_modified (show ("last_modified: " : String).data
      = 'l' :: ['a', 's', 't', '_', 'm', 'o', 'd', 'i', 'f', 'i', 'e', 'd', ':', ' ']
      from rfl) (by decide)
  have hne3 : ("is_pinned: " ++ (if m.is_pinned then "true" else "false")) ≠ "---" :=
    append_ne_delim _ (show ("is_pinned: " : String).data
      = 'i' :: ['s', '_', 'p', 'i', 'n', 'n', 'e', 'd', ':', ' '] from rfl) (by decide)
  have esad : splitAtDelim (("title: " ++ m.title)
        :: ("last_modified: " ++ m.last_modified)
        :: ("is_pinned: " ++ (if m.is_pinned then "true" else "false")) :: "---"
        :: splitLines body)
      = some ([("title: " ++ m.title), ("last_modified: " ++ m.last_modified),
               ("is_pinned: " ++ (if m.is_pinned then "true" else "false"))],
              splitLines body) := by
    simp only [splitAtDelim, if_neg hne1, if_neg hne2, if_neg hne3]
    simp
  have ekv1 : parseKVLine ("title: " ++ m.title)
      = some ("title", podOfScalar m.title) := rfl
  have ekv2 : parseKVLine ("last_modified: " ++ m.last_modified)
      = some ("last_modified", podOfScalar m.last_modified) := rfl
  have ekv3 : parseKVLine ("is_pinned: " ++ (if m.is_pinned then "true" else "false"))
      = some ("is_pinned", podOfScalar (if m.is_pinned then "true" else "false")) := rfl
  unfold matterParse
  rw [splitLines_serialize m body ht hm]
  simp only [esad, List.filterMap_cons, ekv1, ekv2, ekv3, List.filterMap_nil]
  simp

/-- C2 (amended): serializing a note and deserializing the produced byte
stream reproduces the title (for any title the YAML engine reads back as
the same plain string scalar) and the body exactly — including bodies
containing the literal `---` separator line — but NOT the pinned flag:
`deserialize_from_file` never reads `is_pinned` back, so it is always the
default `false` (and the modification time is not restored either: the
writer emits the key `last_modified` while the reader looks up
`modified`). -/
theorem serialize_roundtrip_title_body_not_pinned (m : Metadata) (body : String)
    (hplain : podOfScalar m.title = Pod.string m.title)
    (ht : ∀ c ∈ m.title.data, c ≠ '\n')
    (hm : ∀ c ∈ m.last_modified.data, c ≠ '\n') :
    deserialize_from_file (serialize m body)
      = .ok ({ title := m.title, last_modified := "", is_pinned := false }, body) := by
  unfold deserialize_from_file
  rw [matterParse_serialize m body ht hm, unsplitLines_splitLines]
  show (do
      let title ← getStringField [("title", podOfScalar m.title),
        ("last_modified", podOfScalar m.last_modified),
        ("is_pinned", podOfScalar (if m.is_pinned then "true" else "false"))] "title"
      let modified ← getStringField [("title", podOfScalar m.title),
        ("last_modified", podOfScalar m.last_modified),
        ("is_pinned", podOfScalar (if m.is_pinned then "true" else "false"))] "modified"
      Except.ok ({ title := title, last_modified := modified, is_pinned := false }, body)
      : Except String (Metadata × String)) = _
  have e1 : getStringField [("title", podOfScalar m.title),
      ("last_modified", podOfScalar m.last_modified),
      ("is_pinned", podOfScalar (if m.is_pinned then "true" else "false"))] "title"
      = .ok m.title := by
    unfold getStringField
    rw [show ([("title", podOfScalar m.title),
      ("last_modified", podOfScalar m.last_modified),
      ("is_pinned", podOfScalar (if m.is_pinned then "true" else "false"))].lookup "title")
      = some (podOfScalar m.title) from rfl]
    rw [hplain]
    rfl
  have e2 : getStringField [("title", podOfScalar m.title),
      ("last_modified", podOfScalar m.last_modified),
      ("is_pinned", podOfScalar (if m.is_pinned then "true" else "false"))] "modified"
      = .ok "" := rfl
  rw [e1, e2]
  rfl

/-- Witness for C2: a pinned note with title "a" and a body that contains
the literal separator line round-trips its title and body exactly (the
pinned flag is dropped, as the amended claim states). -/
theorem serialize_roundtrip_title_body_not_pinned_witness :
    podOfScalar ("a" : String) = Pod.string "a" ∧
    deserialize_from_file (serialize ⟨"a", "b", true⟩ "x\n---\ny")
      = .ok ({ title := "a", last_modified := "", is_pinned := false }, "x\n---\ny") :=
  ⟨by decide,
   serialize_roundtrip_title_body_not_pinned ⟨"a", "b", true⟩ "x\n---\ny"
     (by decide) (by decide) (by decide)⟩

/-- Counterexample for C2 as frozen: a pinned note does not round-trip its
pinned flag — serializing `{title := "a", pinned := true, body := "c"}`
and deserializing yields `is_pinned = false`. -/
theorem serialize_roundtrip_pinned_counterexample :
    deserialize_from_file (serialize ⟨"a", "b", true⟩ "c")
      = .ok ({ title := "a", last_modified := "", is_pinned := false }, "c") ∧
    ¬ ((false : Bool) = (⟨"a", "b", true⟩ : Metadata).is_pinned) := by
  decide

theorem splitAtDelim_append (fm body : List String) (hfm : ∀ l ∈ fm, l ≠ "---") :
    splitAtDelim (fm ++ "---" :: body) = some (fm, body) := by
  induction fm with
  | nil => simp [splitAtDelim]
  | cons l ls ih =>
    have hl : l ≠ "---" := hfm l (List.mem_cons_self _ _)
    simp only [List.cons_append, splitAtDelim, if_neg hl, List.append_eq,
      ih (fun x hx => hfm x (List.mem_cons_of_mem _ hx))]
    rfl

theorem matterParse_of_splitLines {input : String} {fm body : List String}
    (h : splitLines input = "---" :: (fm ++ "---" :: body))
    (hfm : ∀ l ∈ fm, l ≠ "---") :
    matterParse input = (some (fm.filterMap parseKVLine), unsplitLines body) := by
  unfold matterParse
  rw [h]
  simp only [splitAtDelim_append fm body hfm]
  simp

/-- C8 (amended): a note file with no front-matter block, or with
front-matter fields missing, loads with the documented defaults (empty
title, default timestamp, unpinned) — indeed `is_pinned` is never read,
so even a present `is_pinned` field is ignored. A malformed field,
however, DOES fail the load: a present `title` (or `modified`) whose YAML
value is not a string hits `as_string().unwrap()` and panics instead of
falling back to a default (see the counterexample). -/
theorem deserialize_defaults_on_missing_fields (s : String) :
    ((splitLines s).head? ≠ some "---" →
      deserialize_from_file s = .ok (Metadata.default, s)) ∧
    deserialize_from_file ("---\n---\n" ++ s) = .ok (Metadata.default, s) ∧
    deserialize_from_file ("---\nis_pinned: true\n---\n" ++ s)
      = .ok (Metadata.default, s) := by
  refine ⟨?_, ?_, ?_⟩
  · intro h
    unfold deserialize_from_file matterParse
    cases hsl : splitLines s with
    | nil => rfl
    | cons first rest =>
      rw [hsl] at h
      have hf : first ≠ "---" := fun hEq => h (by rw [hEq]; rfl)
      simp only [if_neg hf]
  · have hd : ("---\n---\n" ++ s).data
        = ("---" : String).data ++ '\n' :: (("---" : String).data ++ '\n' :: s.data) := rfl
    have hsplit : splitLines ("---\n---\n" ++ s)
        = "---" :: ([] ++ "---" :: splitLines s) := by
      unfold splitLines
      rw [hd, splitLinesChars_append_newline _ _ (by decide),
          splitLinesChars_append_newline _ _ (by decide)]
      rfl
    unfold deserialize_from_file
    rw [matterParse_of_splitLines hsplit (by intro l hl; exact absurd hl (List.not_mem_nil l)),
      unsplitLines_splitLines]
    rfl
  · have hd : ("---\nis_pinned: true\n---\n" ++ s).data
        = ("---" : String).data ++ '\n' :: (("is_pinned: true" : String).data ++ '\n' ::
          (("---" : String).data ++ '\n' :: s.data)) := rfl
    have hsplit : splitLines ("---\nis_pinned: true\n---\n" ++ s)
        = "---" :: (["is_pinned: true"] ++ "---" :: splitLines s) := by
      unfold splitLines
      rw [hd, splitLinesChars_append_newline _ _ (by decide),
          splitLinesChars_append_newline _ _ (by decide),
          splitLinesChars_append_newline _ _ (by decide)]
      rfl
    unfold deserialize_from_file
    rw [matterParse_of_splitLines hsplit (by
        intro l hl
        rw [List.mem_singleton] at hl
        subst hl
        decide),
      unsplitLines_splitLines]
    rfl

/-- Witness for C8: a document with no front matter, one with an empty
front-matter block, and one whose only field is `is_pinned`, all load
with the defaults. -/
theorem deserialize_defaults_on_missing_fields_witness :
    deserialize_from_file "hello" = .ok (Metadata.default, "hello") ∧
    deserialize_from_file ("---\n---\n" ++ "hello") = .ok (Metadata.default, "hello") ∧
    deserialize_from_file ("---\nis_pinned: true\n---\n" ++ "hello")
      = .ok (Metadata.default, "hello") :=
  ⟨(deserialize_defaults_on_missing_fields "hello").1 (by decide),
   (deserialize_defaults_on_missing_fields "hello").2.1,
   (deserialize_defaults_on_missing_fields "hello").2.2⟩

/-- Counterexample for C8 as frozen: a front-matter `title` whose YAML
value is malformed (the integer `123`, not a string) does not fall back
to a default — `as_string().unwrap()` panics and the load fails. -/
theorem deserialize_malformed_field_counterexample :
    deserialize_from_file "---\ntitle: 123\n---\nbody"
      = .error "panicked: called Result::unwrap on an Err value" := by
  decide

/-! ## NoteManager (src/src/session/note_manager.rs) -/

/-- A directory entry as seen by `load_notes`: the file's name and the
outcome of `Note::deserialize` on it (the loaded note represented by an
identifier, or the deserialization error). -/
structure NoteFile where
  name : String
  parse : Except String String
deriving DecidableEq, Repr

/-- `Path::extension()` on the characters after the first one of a file
name: the part after the last `.`, if any. -/
def fileExtensionAux : List Char → Option (List Char)
  | [] => none
  | c :: cs =>
    match fileExtensionAux cs with
    | some e => some e
    | none => if c = '.' then some cs else none

/-- `file_name.extension().unwrap_or_default()` (note_manager.rs line 183):
the part of the file name after its last dot; a name without a dot — or
with only a leading dot (hidden file) — yields the empty default. -/
def fileExtension (name : String) : String :=
  match name.data with
  | [] => ""
  | _ :: cs =>
    match fileExtensionAux cs with
    | some e => String.mk e
    | none => ""

/-- `NoteManager::load_notes` (note_manager.rs lines 169-205): walk the
directory entries in order; a file whose extension is not `md` is logged
and skipped; each remaining file runs `Note::deserialize(&file).await?` —
the `?` aborts the whole load at the first failing note file. On success
all loaded notes are appended to the fresh `NoteList` in order. -/
def load_notes : List NoteFile → Except String (List String)
  | [] => .ok []
  | f :: fs =>
    if fileExtension f.name ≠ "md" then load_notes fs
    else do
      let note ← f.parse
      let rest ← load_notes fs
      .ok (note :: rest)

/-- C5 (amended): `load_notes` skips non-`md` files and succeeds when every
`md` file deserializes, but it does NOT skip a failing note file: the
first `md` file whose deserialization fails aborts the aggregate load with
that error (the `?` operator propagates it), so the operation does not
return success. -/
theorem load_notes_aborts_on_bad_note (fs : List NoteFile) :
    ((∀ f ∈ fs, fileExtension f.name = "md" → f.parse.isOk = true) →
      (load_notes fs).isOk = true) ∧
    ((∃ f ∈ fs, fileExtension f.name = "md" ∧ f.parse.isOk = false) →
      (load_notes fs).isOk = false) := by
  induction fs with
  | nil =>
    constructor
    · intro _; rfl
    · rintro ⟨f, hf, -⟩
      exact absurd hf (List.not_mem_nil f)
  | cons f fs ih =>
    constructor
    · intro h
      by_cases hext : fileExtension f.name = "md"
      · have hok : f.parse.isOk = true := h f (List.mem_cons_self f fs) hext
        have hrest : (load_notes fs).isOk = true :=
          ih.1 fun g hg => h g (List.mem_cons_of_mem f hg)
        show (if fileExtension f.name ≠ "md" then load_notes fs else _).isOk = true
        rw [if_neg (by simp [hext])]
        cases hp : f.parse with
        | error e => rw [hp] at hok; simp [Except.isOk, Except.toBool] at hok
        | ok a =>
          cases hr : load_notes fs with
          | error e => rw [hr] at hrest; simp [Except.isOk, Except.toBool] at hrest
          | ok l => rfl
      · show (if fileExtension f.name ≠ "md" then load_notes fs else _).isOk = true
        rw [if_pos hext]
        exact ih.1 fun g hg => h g (List.mem_cons_of_mem f hg)
    · rintro ⟨g, hg, hgext, hgbad⟩
      rcases List.mem_cons.mp hg with rfl | hg'
      · show (if fileExtension g.name ≠ "md" then load_notes fs else _).isOk = false
        rw [if_neg (by simp [hgext])]
        cases hp : g.parse with
        | error e => rfl
        | ok a => rw [hp] at hgbad; simp [Except.isOk, Except.toBool] at hgbad
      · have hrest : (load_notes fs).isOk = false := ih.2 ⟨g, hg', hgext, hgbad⟩
        by_cases hext : fileExtension f.name = "md"
        · show (if fileExtension f.name ≠ "md" then load_notes fs else _).isOk = false
          rw [if_neg (by simp [hext])]
          cases hp : f.parse with
          | error e => rfl
          | ok a =>
            cases hr : load_notes fs with
            | error e => rfl
            | ok l => rw [hr] at hrest; simp [Except.isOk, Except.toBool] at hrest
        · show (if fileExtension f.name ≠ "md" then load_notes fs else _).isOk = false
          rw [if_pos hext]
          exact hrest

/-- Witness for C5: a directory whose non-note file (`data.nwty`) would
fail to parse still loads fine, while a failing `md` note file makes the
aggregate load fail. -/
theorem load_notes_aborts_on_bad_note_witness :
    (load_notes [⟨"a.md", .ok "A"⟩, ⟨"data.nwty", .error "not a note"⟩]).isOk = true ∧
    (load_notes [⟨"a.md", .ok "A"⟩, ⟨"bad.md", .error "corrupt"⟩]).isOk = false :=
  ⟨(load_notes_aborts_on_bad_note [⟨"a.md", .ok "A"⟩, ⟨"data.nwty", .error "not a note"⟩]).1
     (by decide),
   (load_notes_aborts_on_bad_note [⟨"a.md", .ok "A"⟩, ⟨"bad.md", .error "corrupt"⟩]).2
     ⟨⟨"bad.md", .error "corrupt"⟩, by decide, by decide, by decide⟩⟩

/-- Counterexample for C5 as frozen: one bad note file among good ones is
not skipped — the whole `load_notes` returns its error, and the notes
after it are not loaded. -/
theorem load_notes_counterexample :
    load_notes [⟨"a.md", .ok "A"⟩, ⟨"bad.md", .error "corrupt"⟩, ⟨"c.md", .ok "C"⟩]
      = .error "corrupt" ∧
    ¬ (load_notes [⟨"a.md", .ok "A"⟩, ⟨"bad.md", .error "corrupt"⟩,
        ⟨"c.md", .ok "C"⟩]).isOk = true := by
  decide

/-- Modelled from the spec: `NoteList` — the `IndexedRegistry<Note>`
(`src/src/model/note_list.rs` is not among the provided sources). Per spec
§4.1 it is an ordered, uniquely-keyed registry: `remove(key)` removes the
entry, shifts later positions down and emits one removal notification;
`get(key)` is a key lookup returning absence as an empty result. Notes are
represented by their ids. `remove` on an absent key leaves the registry
unchanged. -/
def noteListRemove (l : List String) (id : String) : List String × List ItemsChanged :=
  match posOf id l with
  | some i => (removeFirst id l, [⟨i, 1, 0⟩])
  | none => (l, [])

/-- Modelled from the spec: `NoteList::get(note_id)` — key lookup. -/
def noteListGet (l : List String) (id : String) : Option String :=
  if id ∈ l then some id else none

/-- `NoteManager::delete_note` (note_manager.rs lines 321-331): removes the
id from the registry FIRST, then calls `note_list.get(note_id).unwrap()` —
but the note was just removed, so `get` returns `None` and the `unwrap`
panics; `note.delete().unwrap()` (which would itself panic on a file
error instead of returning it) is never even reached. `fileDeleteOk` says
whether deleting the backing file would succeed. -/
def delete_note (l : List String) (id : String) (fileDeleteOk : Bool) :
    Except String (List String × List ItemsChanged) :=
  let r := noteListRemove l id
  match noteListGet r.1 id with
  | none => .error "panicked: called Option::unwrap on a None value"
  | some _ =>
    if fileDeleteOk then .ok r
    else .error "panicked: called Result::unwrap on an Err value"

theorem not_mem_removeFirst_self {α : Type} [DecidableEq α] {x : α} :
    ∀ {l : List α}, l.Nodup → x ∉ removeFirst x l := by
  intro l
  induction l with
  | nil => intro _; simp [removeFirst]
  | cons y ys ih =>
    intro hnd
    have hnd' := List.nodup_cons.mp hnd
    by_cases hy : y = x
    · rw [show removeFirst x (y :: ys) = ys from by
        simp only [removeFirst, if_pos hy]]
      rw [← hy]
      exact hnd'.1
    · rw [show removeFirst x (y :: ys) = y :: removeFirst x ys from by
        simp only [removeFirst, if_neg hy]]
      intro hmem
      rcases List.mem_cons.mp hmem with h' | h'
      · exact hy h'.symm
      · exact ih hnd'.2 h'

theorem posOf_eq_none_of_not_mem {α : Type} [DecidableEq α] {x : α} {l : List α}
    (h : x ∉ l) : posOf x l = none := by
  cases hp : posOf x l with
  | none => rfl
  | some i => exact absurd (posOf_mem hp) h

/-- C3: `delete_note`, called on a duplicate-free registry, always panics —
it removes the note and then `unwrap`s the now-empty lookup, so the file
deletion never happens and no error is returned to the caller. -/
theorem delete_note_always_panics (l : List String) (id : String) (fileDeleteOk : Bool)
    (h : l.Nodup) :
    delete_note l id fileDeleteOk
      = .error "panicked: called Option::unwrap on a None value" := by
  unfold delete_note noteListRemove noteListGet
  by_cases hm : id ∈ l
  · rcases posOf_eq_some_of_mem hm with ⟨i, hi⟩
    rw [hi]
    have hni : id ∉ removeFirst id l := not_mem_removeFirst_self h
    simp only [if_neg hni]
  · rw [posOf_eq_none_of_not_mem hm]
    simp only [if_neg hm]

/-- Witness for C3: deleting note "n1" from the registry ["n1", "n2"]
panics instead of removing the note and deleting its file. -/
theorem delete_note_always_panics_witness :
    (["n1", "n2"] : List String).Nodup ∧
    delete_note ["n1", "n2"] "n1" true
      = .error "panicked: called Option::unwrap on a None value" :=
  ⟨by decide, delete_note_always_panics ["n1", "n2"] "n1" true (by decide)⟩

/-! ## Repository acquisition (src/src/session/note_manager.rs lines 122-141) -/

/-- Modelled from the spec: `NoteRepository`
(`src/src/session/note_repository.rs` is not among the provided sources;
spec §4.2 specifies `clone`, `open` and the fetch+merge `update` as
blocking VCS operations that succeed or fail). The outcomes of the three
operations for the directory and remote at hand are the inputs. -/
structure RepoEnv where
  cloneResult : Except String Unit
  openResult : Except String Unit
  updateResult : Except String Unit
deriving DecidableEq, Repr

/-- How `NoteManager::for_directory` terminates: normally, or by an
unhandled panic with the unwrapped error. -/
inductive AcquireOutcome where
  | ok
  | panicked (msg : String)
deriving DecidableEq, Repr

/-- `NoteManager::for_directory` (note_manager.rs lines 122-141): try
`NoteRepository::clone(..)`; on any error, log a warning and fall back to
`NoteRepository::open(directory).await.unwrap()` followed by
`repo.update().await.unwrap()` — both `unwrap`s turn errors into panics. -/
def for_directory (env : RepoEnv) : AcquireOutcome :=
  match env.cloneResult with
  | .ok _ => .ok
  | .error _ =>
    match env.openResult with
    | .error e => .panicked e
    | .ok _ =>
      match env.updateResult with
      | .error e => .panicked e
      | .ok _ => .ok

/-- C4 (amended): on clone failure `for_directory` does fall back to
`open` + `update`, but errors from that fallback are NOT merely logged:
they are `unwrap`ped into panics. Acquisition completes without an
unhandled failure exactly when the clone succeeds, or both the open and
the best-effort update succeed. -/
theorem for_directory_ok_iff (env : RepoEnv) :
    for_directory env = .ok ↔
      (env.cloneResult.isOk = true ∨
        (env.openResult.isOk = true ∧ env.updateResult.isOk = true)) := by
  rcases env with ⟨c, o, u⟩
  cases c <;> cases o <;> cases u <;>
    simp [for_directory, Except.isOk, Except.toBool]

/-- Counterexample for C4 as frozen: with an unreachable remote the clone
fails (falling back to open), the directory opens, and the best-effort
update fails — and `for_directory` panics on the update's error instead
of logging it and completing. -/
theorem for_directory_counterexample :
    for_directory ⟨.error "network unreachable", .ok (), .error "network unreachable"⟩
      = .panicked "network unreachable" ∧
    ¬ for_directory ⟨.error "network unreachable", .ok (), .error "network unreachable"⟩
        = .ok := by
  decide

end Noteworthy
